import Mathlib

/-!
Shallow embedding of the SHA-512 `x86`/`x86_64` backend
(`src/sha2/src/sha512/x86.rs`) and verification of its specification.

Machine integers (`u64`) are embedded as `Nat` with explicit reduction
modulo `2 ^ 64` wherever the hardware wraps.  A 128-bit vector register
(`__m128i`, two 64-bit lanes) is a pair of `Nat`s, lowest lane first; a
256-bit register (`__m256i`) is a pair of 128-bit halves, lowest half
first.  A message block (`[u8; 128]`) is a byte function `Nat → Nat`
(only indices `< 128` are ever read), with byte-range hypotheses carried
explicitly.  Arrays that the code mutates in place (`ms`, `t2`) are
embedded as functions `Nat → Nat` threaded through the loops, updated
with `Function.update`.
-/

namespace SHA512X86

/-- The `u64` modulus `2 ^ 64`. -/
def M : Nat := 2 ^ 64

/-- The operation `u64::wrapping_add`. -/
def wadd (a b : Nat) : Nat := (a + b) % M

/-- The operation `u64::rotate_right` (for values `< M`): the bits shifted out on the
right re-enter on the left. -/
def rotr (a n : Nat) : Nat := (a >>> n) ||| ((a <<< (64 - n)) % M)

/-- A message block `[u8; 128]`, as a byte function. -/
def Block : Type := Nat → Nat

/-- All values of a byte function are bytes. -/
def Bytes (b : Block) : Prop := ∀ i, b i < 256

/-- The all-zero block, used as the (never dereferenced in-bounds)
default when embedding raw-pointer indexing of the block slice. -/
def zeroBlock : Block := fun _ => 0

/-- Little-endian 64-bit load of the 8 bytes starting at offset `o`
(what `_mm_loadu_si128` yields per lane on x86). -/
def leWord (b : Block) (o : Nat) : Nat :=
  b o + b (o + 1) * 2 ^ 8 + b (o + 2) * 2 ^ 16 + b (o + 3) * 2 ^ 24 +
  b (o + 4) * 2 ^ 32 + b (o + 5) * 2 ^ 40 + b (o + 6) * 2 ^ 48 + b (o + 7) * 2 ^ 56

/-- Big-endian interpretation of the 8 bytes of 64-bit word `j` of a
block (word `j` occupies bytes `8*j .. 8*j+7`). -/
def beWord (b : Block) (j : Nat) : Nat :=
  b (8 * j + 7) + b (8 * j + 6) * 2 ^ 8 + b (8 * j + 5) * 2 ^ 16 + b (8 * j + 4) * 2 ^ 24 +
  b (8 * j + 3) * 2 ^ 32 + b (8 * j + 2) * 2 ^ 40 + b (8 * j + 1) * 2 ^ 48 + b (8 * j) * 2 ^ 56

/-- Byte `k` (little-endian position) of a 64-bit value. -/
def byteAt (a k : Nat) : Nat := (a >>> (8 * k)) % 256

/-- Byte-reversal of one 64-bit lane.  This is the per-lane action of
`_mm_shuffle_epi8` / `_mm256_shuffle_epi8` with the `MASK` constants of
`load_data_avx` / `load_data_avx2` (byte indices `7,6,…,0` within each
64-bit group): it converts a little-endian lane load into the big-endian
word the algorithm needs. -/
def bswap64 (a : Nat) : Nat :=
  byteAt a 7 + byteAt a 6 * 2 ^ 8 + byteAt a 5 * 2 ^ 16 + byteAt a 4 * 2 ^ 24 +
  byteAt a 3 * 2 ^ 32 + byteAt a 2 * 2 ^ 40 + byteAt a 1 * 2 ^ 48 + byteAt a 0 * 2 ^ 56

/-- A 128-bit vector value: two 64-bit lanes, lowest first. -/
abbrev V2 : Type := Nat × Nat

/-- A 256-bit vector value: low 128-bit half, then high 128-bit half. -/
abbrev V4 : Type := V2 × V2

/-- Load `_mm_loadu_si128` at byte offset `off` of a block's byte stream. -/
def loadu128 (b : Block) (off : Nat) : V2 := (leWord b off, leWord b (off + 8))

/-- The byte shuffle with the big-endian `MASK`, on a 128-bit value. -/
def vbswap (v : V2) : V2 := (bswap64 v.1, bswap64 v.2)

/-- Modelled from the spec: the 80-entry round-constant table `K64`
lives in `consts.rs`, which is not under `src/`.  The spec pins the
table length (80) and the two values `K64[0] = 0x428a2f98d728ae22` and
`K64[79] = 0x6c44198c4a475817`; no claim depends on the remaining
entries, so this model fills them with a distinct stand-in per index. -/
def K64 (i : Nat) : Nat :=
  if i = 0 then 0x428a2f98d728ae22 else if i = 79 then 0x6c44198c4a475817 else i + 1

/-- Modelled from the spec: the lane-replicated round-constant table
`K64X4` also lives in the absent `consts.rs`.  The spec describes it as
the interleaved lane-replicated copy of `K64` supporting wide-vector
addition without re-layout; the access pattern of `x86.rs`
(`&K64X4[4 * i]` adding constants `2*i, 2*i+1` to both 128-bit halves)
forces the layout `K64X4[4*j .. 4*j+3] = [K64[2j], K64[2j+1], K64[2j],
K64[2j+1]]`. -/
def K64X4 (j : Nat) : Nat := K64 (2 * (j / 4) + j % 2)

/-- Load `_mm256_loadu_si256` at `&K64X4[j]`: four consecutive table entries,
as two 128-bit halves. -/
def kx4 (j : Nat) : V4 := ((K64X4 j, K64X4 (j + 1)), (K64X4 (j + 2), K64X4 (j + 3)))

/-- The vector operations a width instantiates; mirrors the macro
parameters of `fn_sha512_update_x!`. -/
structure SimdOps (α : Type) where
  add64 : α → α → α
  alignr8 : α → α → α
  srl64 : Nat → α → α
  sll64 : Nat → α → α
  xorv : α → α → α

/-- The 128-bit instantiation (`_mm_add_epi64`, `_mm_alignr_epi8::<8>`,
`_mm_srli_epi64`, `_mm_slli_epi64`, `_mm_xor_si128`).
`_mm_alignr_epi8::<8>(a, b)` takes bytes `8..24` of the concatenation
`a:b`, i.e. the high lane of `b` followed by the low lane of `a`. -/
def v2ops : SimdOps V2 where
  add64 a b := (wadd a.1 b.1, wadd a.2 b.2)
  alignr8 a b := (b.2, a.1)
  srl64 n a := (a.1 >>> n, a.2 >>> n)
  sll64 n a := ((a.1 <<< n) % M, (a.2 <<< n) % M)
  xorv a b := (a.1 ^^^ b.1, a.2 ^^^ b.2)

/-- Componentwise product of two operation sets.  The 256-bit AVX2
operations used by the code (`add/srli/slli/xor` and per-128-bit-lane
`alignr`) all act on each 128-bit half independently. -/
def prodOps (oa : SimdOps α) (ob : SimdOps β) : SimdOps (α × β) where
  add64 a b := (oa.add64 a.1 b.1, ob.add64 a.2 b.2)
  alignr8 a b := (oa.alignr8 a.1 b.1, ob.alignr8 a.2 b.2)
  srl64 n a := (oa.srl64 n a.1, ob.srl64 n a.2)
  sll64 n a := (oa.sll64 n a.1, ob.sll64 n a.2)
  xorv a b := (oa.xorv a.1 b.1, ob.xorv a.2 b.2)

/-- The 256-bit instantiation. -/
def v4ops : SimdOps V4 := prodOps v2ops v2ops

/-- The schedule window `x: [__m128i; 8]` / `[__m256i; 8]`. -/
structure X8 (α : Type) where
  x0 : α
  x1 : α
  x2 : α
  x3 : α
  x4 : α
  x5 : α
  x6 : α
  x7 : α

/-- Low components of a window of pairs. -/
def X8.fstX (x : X8 (α × β)) : X8 α :=
  ⟨x.x0.1, x.x1.1, x.x2.1, x.x3.1, x.x4.1, x.x5.1, x.x6.1, x.x7.1⟩

/-- High components of a window of pairs. -/
def X8.sndX (x : X8 (α × β)) : X8 β :=
  ⟨x.x0.2, x.x1.2, x.x2.2, x.x3.2, x.x4.2, x.x5.2, x.x6.2, x.x7.2⟩

/-- Componentwise pairing of two windows. -/
def X8.zip (a : X8 α) (b : X8 β) : X8 (α × β) :=
  ⟨(a.x0, b.x0), (a.x1, b.x1), (a.x2, b.x2), (a.x3, b.x3),
   (a.x4, b.x4), (a.x5, b.x5), (a.x6, b.x6), (a.x7, b.x7)⟩

/-- The body generated by `fn_sha512_update_x!`: advances the rolling
16-word schedule window by two positions and returns the two new words
with their round constants added (`k` is the dereferenced `LOAD(k64_p)`).
Each `let` line transcribes one statement of the macro body. -/
def sha512_update_x (ops : SimdOps α) (x : X8 α) (k : α) : X8 α × α :=
  let t0 := ops.alignr8 x.x1 x.x0
  let t3 := ops.alignr8 x.x5 x.x4
  let t2 := ops.srl64 1 t0
  let x0 := ops.add64 x.x0 t3
  let t3 := ops.srl64 7 t0
  let t1 := ops.sll64 (64 - 8) t0
  let t0 := ops.xorv t3 t2
  let t2 := ops.srl64 (8 - 1) t2
  let t0 := ops.xorv t0 t1
  let t1 := ops.sll64 (8 - 1) t1
  let t0 := ops.xorv t0 t2
  let t0 := ops.xorv t0 t1
  let t3 := ops.srl64 6 x.x7
  let t2 := ops.sll64 (64 - 61) x.x7
  let x0 := ops.add64 x0 t0
  let t1 := ops.srl64 19 x.x7
  let t3 := ops.xorv t3 t2
  let t2 := ops.sll64 (61 - 19) t2
  let t3 := ops.xorv t3 t1
  let t1 := ops.srl64 (61 - 19) t1
  let t3 := ops.xorv t3 t2
  let t3 := ops.xorv t3 t1
  let x0 := ops.add64 x0 t3
  let xr : X8 α := ⟨x.x1, x.x2, x.x3, x.x4, x.x5, x.x6, x.x7, x0⟩
  (xr, ops.add64 xr.x7 k)

/-- Function `sha512_update_x_avx` (the `__m128i` instantiation). -/
def sha512_update_x_avx (x : X8 V2) (k : V2) : X8 V2 × V2 := sha512_update_x v2ops x k

/-- Function `sha512_update_x_avx2` (the `__m256i` instantiation). -/
def sha512_update_x_avx2 (x : X8 V4) (k : V4) : X8 V4 × V4 := sha512_update_x v4ops x k

/-- The working/chaining state `[u64; 8]`. -/
structure State where
  s0 : Nat
  s1 : Nat
  s2 : Nat
  s3 : Nat
  s4 : Nat
  s5 : Nat
  s6 : Nat
  s7 : Nat
deriving DecidableEq

/-- Macro `big_sigma0!`: `a.rotate_right(28) ^ a.rotate_right(34) ^ a.rotate_right(39)`. -/
def big_sigma0 (a : Nat) : Nat := rotr a 28 ^^^ rotr a 34 ^^^ rotr a 39

/-- Macro `big_sigma1!`: `a.rotate_right(14) ^ a.rotate_right(18) ^ a.rotate_right(41)`. -/
def big_sigma1 (a : Nat) : Nat := rotr a 14 ^^^ rotr a 18 ^^^ rotr a 41

/-- Macro `bool3ary_202!` (Choose): `c ^ (a & (b ^ c))`. -/
def bool3ary_202 (a b c : Nat) : Nat := c ^^^ (a &&& (b ^^^ c))

/-- Macro `bool3ary_232!` (Majority): `(a & b) ^ (a & c) ^ (b & c)`. -/
def bool3ary_232 (a b c : Nat) : Nat := (a &&& b) ^^^ (a &&& c) ^^^ (b &&& c)

/-- Macro `rotate_state!`: every word moves down one slot, `s[7]` wraps to `s[0]`. -/
def rotate_state (s : State) : State :=
  ⟨s.s7, s.s0, s.s1, s.s2, s.s3, s.s4, s.s5, s.s6⟩

/-- Function `sha_round`: one application of the round primitive. -/
def sha_round (s : State) (x : Nat) : State :=
  let t := wadd (wadd (wadd x s.s7) (big_sigma1 s.s4)) (bool3ary_202 s.s4 s.s5 s.s6)
  let s : State := { s with
    s7 := wadd (wadd t (big_sigma0 s.s0)) (bool3ary_232 s.s0 s.s1 s.s2)
    s3 := wadd s.s3 t }
  rotate_state s

/-- Function `accumulate_state`: per-word wrapping addition of `src` into `dst`. -/
def accumulate_state (dst src : State) : State :=
  ⟨wadd dst.s0 src.s0, wadd dst.s1 src.s1, wadd dst.s2 src.s2, wadd dst.s3 src.s3,
   wadd dst.s4 src.s4, wadd dst.s5 src.s5, wadd dst.s6 src.s6, wadd dst.s7 src.s7⟩

/-- Function `load_data_avx`: for `i` in `0..8`, load 16 bytes of the block at
chunk `i`, byte-swap each 64-bit lane, and store the lanes plus the
round constants `K64[2i], K64[2i+1]` into `ms[2i], ms[2i+1]`.  The `ms`
array (zero-initialised `Default::default()` at the call site) is
returned as a function; entries `≥ 16` keep their initial `0`. -/
def load_data_avx (block : Block) : X8 V2 × (Nat → Nat) :=
  let xi : Nat → V2 := fun i => vbswap (loadu128 block (16 * i))
  let yi : Nat → V2 := fun i => v2ops.add64 (xi i) (K64 (2 * i), K64 (2 * i + 1))
  (⟨xi 0, xi 1, xi 2, xi 3, xi 4, xi 5, xi 6, xi 7⟩,
   fun n => if n < 16 then (if n % 2 = 0 then (yi (n / 2)).1 else (yi (n / 2)).2) else 0)

/-- The 256 bytes of a consecutive block pair, as one byte stream: the
`data: *const __m128i` pointer of `load_data_avx2` indexes 16-byte
chunks of this stream (chunks `0..8` are the first block, `8..16` the
second). -/
def blk2 (a b : Block) : Block := fun n => if n < 128 then a n else b (n - 128)

/-- Function `load_data_avx2`: per the source, `insertf128::<1>` puts chunk `i`
of the pair stream into the HIGH half and `insertf128::<0>` puts chunk
`i + 1` into the LOW half; after the byte swap, `K64X4[4i..4i+4]` is
added and the low half is stored to `ms[2i..2i+2]`, the high half to
`t2[2i..2i+2]`.  (Both arrays are zero-initialised at the call site;
entries not written here keep `0`.) -/
def load_data_avx2 (a b : Block) : X8 V4 × (Nat → Nat) × (Nat → Nat) :=
  let data := blk2 a b
  let xi : Nat → V4 := fun i =>
    (vbswap (loadu128 data (16 * (i + 1))), vbswap (loadu128 data (16 * i)))
  let yi : Nat → V4 := fun i => v4ops.add64 (xi i) (kx4 (4 * i))
  (⟨xi 0, xi 1, xi 2, xi 3, xi 4, xi 5, xi 6, xi 7⟩,
   fun n => if n < 16 then (if n % 2 = 0 then (yi (n / 2)).1.1 else (yi (n / 2)).1.2) else 0,
   fun n => if n < 16 then (if n % 2 = 0 then (yi (n / 2)).2.1 else (yi (n / 2)).2.2) else 0)

/-- Store a 128-bit value at `&buf[n]`: `buf[n] ← low lane`,
`buf[n+1] ← high lane`. -/
def upd2 (f : Nat → Nat) (n : Nat) (v : V2) : Nat → Nat :=
  Function.update (Function.update f n v.1) (n + 1) v.2

/-- The doubly nested loop of `rounds_0_63_avx`, flattened: iteration
`t = 8*outer + j` (with `t` running `0..32`, `j = t % 8`,
`k64_idx = 16 + 2*t`) expands the next two schedule words, then runs two
rounds on `ms[2j], ms[2j+1]` and overwrites them with the new pair.  The
first argument is `t`, the second the number of remaining iterations. -/
def rounds_0_63_avx_go : Nat → Nat → State → X8 V2 → (Nat → Nat) → State × X8 V2 × (Nat → Nat)
  | _, 0, cs, x, ms => (cs, x, ms)
  | t, r + 1, cs, x, ms =>
    let j := t % 8
    let p := sha512_update_x v2ops x (K64 (16 + 2 * t), K64 (16 + 2 * t + 1))
    let cs := sha_round cs (ms (2 * j))
    let cs := sha_round cs (ms (2 * j + 1))
    rounds_0_63_avx_go (t + 1) r cs p.1 (upd2 ms (2 * j) p.2)

/-- Function `rounds_0_63_avx`: 32 iterations, two rounds each. -/
def rounds_0_63_avx (cs : State) (x : X8 V2) (ms : Nat → Nat) :
    State × X8 V2 × (Nat → Nat) :=
  rounds_0_63_avx_go 0 32 cs x ms

/-- The doubly nested loop of `rounds_0_63_avx2`, flattened: iteration
`t = 8*(i-1) + j` for outer `i` in `1..5`, inner `j` in `0..8`
(`k64x4_idx = 32 + 4*t`); the low half of the new pair goes to
`ms[2j..2j+2]`, the high half to `t2[16*i + 2*j ..]`. -/
def rounds_0_63_avx2_go : Nat → Nat → State → X8 V4 → (Nat → Nat) → (Nat → Nat) →
    State × X8 V4 × (Nat → Nat) × (Nat → Nat)
  | _, 0, cs, x, ms, t2 => (cs, x, ms, t2)
  | t, r + 1, cs, x, ms, t2 =>
    let j := t % 8
    let i := t / 8 + 1
    let p := sha512_update_x v4ops x (kx4 (32 + 4 * t))
    let cs := sha_round cs (ms (2 * j))
    let cs := sha_round cs (ms (2 * j + 1))
    rounds_0_63_avx2_go (t + 1) r cs p.1 (upd2 ms (2 * j) p.2.1)
      (upd2 t2 (16 * i + 2 * j) p.2.2)

/-- Function `rounds_0_63_avx2`: 32 iterations, two rounds each, filling
`t2[16..80]` alongside. -/
def rounds_0_63_avx2 (cs : State) (x : X8 V4) (ms t2 : Nat → Nat) :
    State × X8 V4 × (Nat → Nat) × (Nat → Nat) :=
  rounds_0_63_avx2_go 0 32 cs x ms t2

/-- Function `rounds_64_79`: rounds `64..80` consume `ms[i & 0xf]`. -/
def rounds_64_79 (cs : State) (ms : Nat → Nat) : State :=
  List.foldl (fun c i => sha_round c (ms (i &&& 0xf))) cs (List.range' 64 16)

/-- Function `process_second_block`: one round per entry of the 80-word `t2`
scratch, in order. -/
def process_second_block (cs : State) (t2 : Nat → Nat) : State :=
  List.foldl (fun c i => sha_round c (t2 i)) cs (List.range 80)

/-- Function `sha512_compress_x86_64_avx`: the narrow-vector single-block
compressor. -/
def sha512_compress_x86_64_avx (state : State) (block : Block) : State :=
  let ld := load_data_avx block
  let cs := state
  let r := rounds_0_63_avx cs ld.1 ld.2
  let cs := rounds_64_79 r.1 r.2.2
  accumulate_state state cs

/-- The body of one iteration of the pair loop of
`sha512_compress_x86_64_avx2` (blocks `i` and `i + 1`): load both
schedules, run the first block's 80 rounds from a working copy of the
state and accumulate, then re-seed the working copy from the updated
state, run the second block's 80 rounds from `t2` and accumulate. -/
def avx2_pair_step (state : State) (a b : Block) : State :=
  let ld := load_data_avx2 a b
  let cs := state
  let r := rounds_0_63_avx2 cs ld.1 ld.2.1 ld.2.2
  let cs := rounds_64_79 r.1 r.2.2.1
  let state := accumulate_state state cs
  let cs := state
  let cs := process_second_block cs r.2.2.2
  accumulate_state state cs

/-- The `for i in (start_block..blocks.len()).step_by(2)` loop.  A fuel
argument (any value with `blocks.length ≤ i + 2 * fuel`; the compressor
passes `blocks.length`) stands in for the loop bound. -/
def avx2_loop (blocks : List Block) : Nat → State → Nat → State
  | 0, s, _ => s
  | fuel + 1, s, i =>
    if i < blocks.length then
      avx2_loop blocks fuel
        (avx2_pair_step s (blocks.getD i zeroBlock) (blocks.getD (i + 1) zeroBlock)) (i + 2)
    else s

/-- Function `sha512_compress_x86_64_avx2`: the wide-vector dual-block
compressor.  An odd leading block goes through the narrow path
(`start_block = 1`), the rest are consumed by the pair loop. -/
def sha512_compress_x86_64_avx2 (state : State) (blocks : List Block) : State :=
  if blocks.length &&& 0b1 ≠ 0 then
    let state := sha512_compress_x86_64_avx state (blocks.getD 0 zeroBlock)
    avx2_loop blocks blocks.length state 1
  else
    avx2_loop blocks blocks.length state 0

/-- The spec's `σ0(a) = rotr(a,1) ⊕ rotr(a,8) ⊕ shr(a,7)`. -/
def sigma0 (a : Nat) : Nat := rotr a 1 ^^^ rotr a 8 ^^^ (a >>> 7)

/-- The spec's `σ1(a) = rotr(a,19) ⊕ rotr(a,61) ⊕ shr(a,6)`. -/
def sigma1 (a : Nat) : Nat := rotr a 19 ^^^ rotr a 61 ^^^ (a >>> 6)

/-- Memoizing helper for the message schedule: `schedAux b n` is the
schedule restricted to indices `< n` (and `0` at `n = 0`). -/
def schedAux (b : Block) : Nat → Nat → Nat
  | 0, _ => 0
  | n + 1, i =>
    if i = n then
      if n < 16 then beWord b n
      else
        wadd (wadd (wadd (schedAux b n (n - 16)) (schedAux b n (n - 7)))
          (sigma0 (schedAux b n (n - 15)))) (sigma1 (schedAux b n (n - 2)))
    else schedAux b n i

/-- Modelled from the spec: the reference message schedule of §4.4
(`soft::compress`'s expansion is not under `src/`): `W[i]` is the
big-endian block word for `i < 16` and
`W[i] = W[i-16] + W[i-7] + σ0(W[i-15]) + σ1(W[i-2])` (mod 2⁶⁴) above. -/
def Wsched (b : Block) (i : Nat) : Nat := schedAux b (i + 1) i

/-- Modelled from the spec: one block of the scalar compressor contract
of §4.5 — 80 rounds fed `W[i] + K[i]` from a working copy seeded with
the state, then wrapping accumulation into the state. -/
def scalar_block (state : State) (b : Block) : State :=
  accumulate_state state
    (List.foldl (fun c i => sha_round c (wadd (Wsched b i) (K64 i))) state (List.range 80))

/-- Modelled from the spec: the scalar compressor `soft::compress`
(§4.5, not under `src/`) — one block at a time, in order. -/
def soft_compress (state : State) (blocks : List Block) : State :=
  List.foldl scalar_block state blocks

/-- The dispatcher `compress`.  The cached result of the one-time
`cpufeatures` capability probe (external to this core) is taken as the
boolean argument. -/
def compress (avx2_gate : Bool) (state : State) (blocks : List Block) : State :=
  if avx2_gate then sha512_compress_x86_64_avx2 state blocks
  else soft_compress state blocks

/-- Consuming a block list in consecutive pairs, in order (the shape the
spec prescribes for the wide path after odd-block peeling). -/
def compress_pairs : State → List Block → State
  | s, a :: b :: rest => compress_pairs (avx2_pair_step s a b) rest
  | s, _ => s

/-- The round primitive exactly as claim C3 words it: `t`, the two
replacements, then the rotation, with `Σ0/Σ1/Ch/Maj` written out and all
sums reduced modulo `2 ^ 64` as flat sums. -/
def claim_round (s : State) (x : Nat) : State :=
  let t := (x + s.s7 + (rotr s.s4 14 ^^^ rotr s.s4 18 ^^^ rotr s.s4 41)
    + (s.s6 ^^^ (s.s4 &&& (s.s5 ^^^ s.s6)))) % M
  ⟨(t + (rotr s.s0 28 ^^^ rotr s.s0 34 ^^^ rotr s.s0 39)
      + ((s.s0 &&& s.s1) ^^^ (s.s0 &&& s.s2) ^^^ (s.s1 &&& s.s2))) % M,
   s.s0, s.s1, s.s2, (s.s3 + t) % M, s.s4, s.s5, s.s6⟩

/-- A 16-word window of a scheduling sequence `q`, as the `x` register
file holds it: `x[i] = (q (2*i), q (2*i+1))`. -/
def windowOf (q : Nat → Nat) : X8 V2 :=
  ⟨(q 0, q 1), (q 2, q 3), (q 4, q 5), (q 6, q 7),
   (q 8, q 9), (q 10, q 11), (q 12, q 13), (q 14, q 15)⟩

/-- The low new word one `sha512_update_x` step produces from a window
`q` of the last 16 schedule words: with the new word at index `i`,
`q 0 = W[i-16]`, `q 9 = W[i-7]`, `q 1 = W[i-15]`, `q 14 = W[i-2]`. -/
def nextLo (q : Nat → Nat) : Nat :=
  wadd (wadd (wadd (q 0) (q 9)) (sigma0 (q 1))) (sigma1 (q 14))

/-- The high new word of the same step: the recurrence at index `i + 1`,
reading `q 1 = W[i-15]`, `q 10 = W[i-6]`, `q 2 = W[i-14]`, `q 15 = W[i-1]`. -/
def nextHi (q : Nat → Nat) : Nat :=
  wadd (wadd (wadd (q 1) (q 10)) (sigma0 (q 2))) (sigma1 (q 15))

/-- The window over the reference schedule just before flattened
iteration `t` of the expansion loop. -/
def windowAt (b : Block) (t : Nat) : X8 V2 := windowOf (fun i => Wsched b (2 * t + i))

/-- Which schedule index lives in circular slot `k` just before
iteration `t`: the unique `m ∈ [2t, 2t+16)` with `m ≡ k [MOD 16]`. -/
def msIdx (t k : Nat) : Nat := 2 * t + (k + 16 - (2 * t) % 16) % 16

/-- The circular `ms` buffer invariant before iteration `t`: slot `k`
holds schedule word `msIdx t k` with its round constant added. -/
def msInv (b : Block) (t : Nat) (ms : Nat → Nat) : Prop :=
  ∀ k, k < 16 → ms k = wadd (Wsched b (msIdx t k)) (K64 (msIdx t k))


/-- A concrete block with a single nonzero byte, used for the failing
evaluations of the dual-block path. -/
def cxBlockA : Block := fun i => if i = 0 then 1 else 0

/-- The all-zero state, a concrete evaluation point. -/
def st0 : State := ⟨0, 0, 0, 0, 0, 0, 0, 0⟩

/-- A concrete state used in the failing evaluation of the dual-block
compressor. -/
def stC1 : State := ⟨1, 2, 3, 4, 5, 6, 7, 8⟩

/-- A concrete state used in the failing evaluation of the pair step. -/
def stC5 : State := ⟨11, 12, 13, 14, 15, 16, 17, 18⟩

/-- A concrete 256-bit window, an evaluation point for the expansion
step. -/
def xW : X8 V4 :=
  ⟨((0, 1), (2, 3)), ((4, 5), (6, 7)), ((8, 9), (10, 11)), ((12, 13), (14, 15)),
   ((16, 17), (18, 19)), ((20, 21), (22, 23)), ((24, 25), (26, 27)), ((28, 29), (30, 31))⟩

end SHA512X86

namespace SHA512X86

lemma lor_eq_xor_of_and_eq_zero {x y : Nat} (h : x &&& y = 0) : x ||| y = x ^^^ y := by
  apply Nat.eq_of_testBit_eq
  intro i
  have hb : (x &&& y).testBit i = false := by rw [h]; simp
  rw [Nat.testBit_and] at hb
  rw [Nat.testBit_or, Nat.testBit_xor]
  cases hx : x.testBit i <;> cases hy : y.testBit i <;> simp_all

lemma shift_disjoint {a : Nat} (n : Nat) (ha : a < M) (h0 : 0 < n) (h64 : n < 64) :
    (a >>> n) &&& ((a <<< (64 - n)) % M) = 0 := by
  apply Nat.eq_of_testBit_eq
  intro i
  simp only [M, Nat.testBit_and, Nat.zero_testBit, Nat.testBit_mod_two_pow,
    Nat.testBit_shiftLeft, Nat.testBit_shiftRight]
  by_cases hni : 64 ≤ n + i
  · have : a.testBit (n + i) = false :=
      Nat.testBit_lt_two_pow (lt_of_lt_of_le ha (Nat.pow_le_pow_right (by norm_num) hni))
    simp [this]
  · have : ¬ (64 - n ≤ i) := by omega
    simp [this]

lemma rotr_eq_xor {a : Nat} (n : Nat) (ha : a < M) (h0 : 0 < n) (h64 : n < 64) :
    rotr a n = (a >>> n) ^^^ ((a <<< (64 - n)) % M) := by
  rw [rotr, lor_eq_xor_of_and_eq_zero (shift_disjoint n ha h0 h64)]

lemma nat_xor_left_comm (a b c : Nat) : a ^^^ (b ^^^ c) = b ^^^ (a ^^^ c) := by
  rw [← Nat.xor_assoc, Nat.xor_comm a b, Nat.xor_assoc]

lemma sigma0_shifts {a : Nat} (ha : a < M) :
    ((((a >>> 7) ^^^ (a >>> 1)) ^^^ ((a <<< (64 - 8)) % M)) ^^^ ((a >>> 1) >>> (8 - 1))) ^^^
      ((((a <<< (64 - 8)) % M) <<< (8 - 1)) % M) = sigma0 a := by
  have h1 : (a >>> 1) >>> (8 - 1) = a >>> 8 := by rw [← Nat.shiftRight_add]
  have h2 : (((a <<< (64 - 8)) % M) <<< (8 - 1)) % M = (a <<< 63) % M := by
    simp only [M, Nat.shiftLeft_eq, Nat.mod_mul_mod]
    have h : (2 : Nat) ^ (64 - 8) * 2 ^ (8 - 1) = 2 ^ 63 := by norm_num
    rw [Nat.mul_assoc, h]
  rw [h1, h2, sigma0, rotr_eq_xor 1 ha (by norm_num) (by norm_num),
    rotr_eq_xor 8 ha (by norm_num) (by norm_num)]
  have h64 : (64 : Nat) - 1 = 63 := by norm_num
  rw [h64]
  simp [Nat.xor_assoc, Nat.xor_comm, nat_xor_left_comm]

lemma sigma1_shifts {a : Nat} (ha : a < M) :
    ((((a >>> 6) ^^^ ((a <<< (64 - 61)) % M)) ^^^ (a >>> 19)) ^^^
        ((((a <<< (64 - 61)) % M) <<< (61 - 19)) % M)) ^^^ ((a >>> 19) >>> (61 - 19)) =
      sigma1 a := by
  have h1 : (a >>> 19) >>> (61 - 19) = a >>> 61 := by rw [← Nat.shiftRight_add]
  have h2 : (((a <<< (64 - 61)) % M) <<< (61 - 19)) % M = (a <<< 45) % M := by
    simp only [M, Nat.shiftLeft_eq, Nat.mod_mul_mod]
    have h : (2 : Nat) ^ (64 - 61) * 2 ^ (61 - 19) = 2 ^ 45 := by norm_num
    rw [Nat.mul_assoc, h]
  rw [h1, h2, sigma1, rotr_eq_xor 19 ha (by norm_num) (by norm_num),
    rotr_eq_xor 61 ha (by norm_num) (by norm_num)]
  have h45 : (64 : Nat) - 19 = 45 := by norm_num
  have h3 : (64 : Nat) - 61 = 3 := by norm_num
  rw [h45, h3]
  simp [Nat.xor_assoc, Nat.xor_comm, nat_xor_left_comm]

end SHA512X86

namespace SHA512X86

lemma update_x_avx_spec (q : Nat → Nat) (h1 : q 1 < M) (h2 : q 2 < M)
    (h14 : q 14 < M) (h15 : q 15 < M) (k1 k2 : Nat) :
    sha512_update_x v2ops (windowOf q) (k1, k2) =
      (⟨(q 2, q 3), (q 4, q 5), (q 6, q 7), (q 8, q 9), (q 10, q 11), (q 12, q 13),
        (q 14, q 15), (nextLo q, nextHi q)⟩,
       (wadd (nextLo q) k1, wadd (nextHi q) k2)) := by
  simp only [sha512_update_x, v2ops, windowOf, nextLo, nextHi]
  rw [sigma0_shifts h1, sigma0_shifts h2, sigma1_shifts h14, sigma1_shifts h15]

end SHA512X86

namespace SHA512X86

lemma M_pos : 0 < M := by norm_num [M]

lemma wadd_lt (a b : Nat) : wadd a b < M := Nat.mod_lt _ M_pos

lemma schedAux_stable (b : Block) : ∀ n i, i < n → schedAux b n i = Wsched b i := by
  intro n
  induction n with
  | zero => intro i hi; omega
  | succ n ih =>
    intro i hi
    by_cases h : i = n
    · subst h; rfl
    · have hi' : i < n := by omega
      calc schedAux b (n + 1) i = schedAux b n i := by simp [schedAux, h]
        _ = Wsched b i := ih i hi'

lemma Wsched_lt16 (b : Block) (i : Nat) (h : i < 16) : Wsched b i = beWord b i := by
  simp [Wsched, schedAux, h]

lemma Wsched_rec (b : Block) (i : Nat) (h : 16 ≤ i) :
    Wsched b i =
      wadd (wadd (wadd (Wsched b (i - 16)) (Wsched b (i - 7))) (sigma0 (Wsched b (i - 15))))
        (sigma1 (Wsched b (i - 2))) := by
  have h16 : ¬ i < 16 := by omega
  conv_lhs => rw [Wsched]
  simp only [schedAux, if_pos rfl, if_neg h16, if_true]
  rw [schedAux_stable b i (i - 16) (by omega), schedAux_stable b i (i - 7) (by omega),
    schedAux_stable b i (i - 15) (by omega), schedAux_stable b i (i - 2) (by omega)]

lemma beWord_lt (b : Block) (hb : Bytes b) (j : Nat) : beWord b j < M := by
  have h0 := hb (8 * j)
  have h1 := hb (8 * j + 1)
  have h2 := hb (8 * j + 2)
  have h3 := hb (8 * j + 3)
  have h4 := hb (8 * j + 4)
  have h5 := hb (8 * j + 5)
  have h6 := hb (8 * j + 6)
  have h7 := hb (8 * j + 7)
  simp only [beWord, M]
  norm_num
  omega

lemma Wsched_lt (b : Block) (hb : Bytes b) (i : Nat) : Wsched b i < M := by
  rcases Nat.lt_or_ge i 16 with h | h
  · rw [Wsched_lt16 b i h]; exact beWord_lt b hb i
  · rw [Wsched_rec b i h]; exact wadd_lt _ _

lemma wadd_flat3 (a b c : Nat) : wadd (wadd a b) c = (a + b + c) % M := by
  simp [wadd, Nat.mod_add_mod]

lemma wadd_flat4 (a b c d : Nat) : wadd (wadd (wadd a b) c) d = (a + b + c + d) % M := by
  simp [wadd, Nat.mod_add_mod]

lemma upd2_eval (f : Nat → Nat) (n : Nat) (v : V2) (k : Nat) :
    upd2 f n v k = if k = n then v.1 else if k = n + 1 then v.2 else f k := by
  simp only [upd2, Function.update_apply]
  split_ifs <;> first | rfl | omega

lemma msIdx_read (t : Nat) : msIdx t (2 * (t % 8)) = 2 * t := by
  unfold msIdx; omega

lemma msIdx_read1 (t : Nat) : msIdx t (2 * (t % 8) + 1) = 2 * t + 1 := by
  unfold msIdx; omega

lemma msIdx_write (t : Nat) : msIdx (t + 1) (2 * (t % 8)) = 2 * t + 16 := by
  unfold msIdx; omega

lemma msIdx_write1 (t : Nat) : msIdx (t + 1) (2 * (t % 8) + 1) = 2 * t + 17 := by
  unfold msIdx; omega

lemma msIdx_other (t k : Nat) (hk : k < 16) (h0 : k ≠ 2 * (t % 8)) (h1 : k ≠ 2 * (t % 8) + 1) :
    msIdx (t + 1) k = msIdx t k := by
  unfold msIdx; omega

lemma msIdx_final (i : Nat) (h64 : 64 ≤ i) (h80 : i < 80) : msIdx 32 (i % 16) = i := by
  unfold msIdx; omega

lemma nextLo_eq (b : Block) (t : Nat) :
    nextLo (fun i => Wsched b (2 * t + i)) = Wsched b (2 * t + 16) := by
  rw [Wsched_rec b (2 * t + 16) (by omega), show 2 * t + 16 - 16 = 2 * t + 0 from by omega,
    show 2 * t + 16 - 7 = 2 * t + 9 from by omega,
    show 2 * t + 16 - 15 = 2 * t + 1 from by omega,
    show 2 * t + 16 - 2 = 2 * t + 14 from by omega]
  rfl

lemma nextHi_eq (b : Block) (t : Nat) :
    nextHi (fun i => Wsched b (2 * t + i)) = Wsched b (2 * t + 17) := by
  rw [Wsched_rec b (2 * t + 17) (by omega), show 2 * t + 17 - 16 = 2 * t + 1 from by omega,
    show 2 * t + 17 - 7 = 2 * t + 10 from by omega,
    show 2 * t + 17 - 15 = 2 * t + 2 from by omega,
    show 2 * t + 17 - 2 = 2 * t + 15 from by omega]
  rfl

lemma windowAt_succ (b : Block) (t : Nat) :
    windowAt b (t + 1) =
      ⟨(Wsched b (2 * t + 2), Wsched b (2 * t + 3)), (Wsched b (2 * t + 4), Wsched b (2 * t + 5)),
       (Wsched b (2 * t + 6), Wsched b (2 * t + 7)), (Wsched b (2 * t + 8), Wsched b (2 * t + 9)),
       (Wsched b (2 * t + 10), Wsched b (2 * t + 11)),
       (Wsched b (2 * t + 12), Wsched b (2 * t + 13)),
       (Wsched b (2 * t + 14), Wsched b (2 * t + 15)),
       (Wsched b (2 * t + 16), Wsched b (2 * t + 17))⟩ := by
  have h2 : 2 * (t + 1) = 2 * t + 2 := by omega
  simp only [windowAt, windowOf, h2]

end SHA512X86

namespace SHA512X86

lemma windowAt_def (b : Block) (t : Nat) :
    windowAt b t = windowOf (fun i => Wsched b (2 * t + i)) := rfl

lemma rounds_go_step (t r : Nat) (cs : State) (x : X8 V2) (ms : Nat → Nat) :
    rounds_0_63_avx_go t (r + 1) cs x ms =
      rounds_0_63_avx_go (t + 1) r
        (sha_round (sha_round cs (ms (2 * (t % 8)))) (ms (2 * (t % 8) + 1)))
        (sha512_update_x v2ops x (K64 (16 + 2 * t), K64 (16 + 2 * t + 1))).1
        (upd2 ms (2 * (t % 8))
          (sha512_update_x v2ops x (K64 (16 + 2 * t), K64 (16 + 2 * t + 1))).2) := rfl

lemma rounds_go_spec (b : Block) (hb : Bytes b) :
    ∀ r t (cs : State) (ms : Nat → Nat), t + r = 32 → msInv b t ms →
      (rounds_0_63_avx_go t r cs (windowAt b t) ms).1 =
        List.foldl (fun c i => sha_round c (wadd (Wsched b i) (K64 i))) cs
          (List.range' (2 * t) (2 * r)) ∧
      msInv b 32 (rounds_0_63_avx_go t r cs (windowAt b t) ms).2.2 := by
  intro r
  induction r with
  | zero =>
    intro t cs ms ht hms
    have h32 : t = 32 := by omega
    subst h32
    exact ⟨by simp [rounds_0_63_avx_go], by simpa [rounds_0_63_avx_go] using hms⟩
  | succ r ih =>
    intro t cs ms ht hms
    have hq1 := Wsched_lt b hb (2 * t + 1)
    have hq2 := Wsched_lt b hb (2 * t + 2)
    have hq14 := Wsched_lt b hb (2 * t + 14)
    have hq15 := Wsched_lt b hb (2 * t + 15)
    have hup := update_x_avx_spec (fun i => Wsched b (2 * t + i)) hq1 hq2 hq14 hq15
      (K64 (16 + 2 * t)) (K64 (16 + 2 * t + 1))
    rw [rounds_go_step, windowAt_def, hup]
    simp only [nextLo_eq, nextHi_eq]
    rw [← windowAt_succ]
    rw [hms (2 * (t % 8)) (by omega), hms (2 * (t % 8) + 1) (by omega), msIdx_read, msIdx_read1]
    have hmsInv' : msInv b (t + 1)
        (upd2 ms (2 * (t % 8))
          (wadd (Wsched b (2 * t + 16)) (K64 (16 + 2 * t)),
           wadd (Wsched b (2 * t + 17)) (K64 (16 + 2 * t + 1)))) := by
      intro k hk
      rw [upd2_eval]
      by_cases e0 : k = 2 * (t % 8)
      · rw [if_pos e0, e0, msIdx_write, show 16 + 2 * t = 2 * t + 16 from by ring]
      · rw [if_neg e0]
        by_cases e1 : k = 2 * (t % 8) + 1
        · rw [if_pos e1, e1, msIdx_write1, show 16 + 2 * t + 1 = 2 * t + 17 from by ring]
        · rw [if_neg e1, msIdx_other t k hk e0 e1]
          exact hms k hk
    have hih := ih (t + 1)
      (sha_round (sha_round cs (wadd (Wsched b (2 * t)) (K64 (2 * t))))
        (wadd (Wsched b (2 * t + 1)) (K64 (2 * t + 1))))
      (upd2 ms (2 * (t % 8))
        (wadd (Wsched b (2 * t + 16)) (K64 (16 + 2 * t)),
         wadd (Wsched b (2 * t + 17)) (K64 (16 + 2 * t + 1))))
      (by omega) hmsInv'
    rw [show 2 * (t + 1) = 2 * t + 2 from by ring] at hih
    have hr : List.range' (2 * t) (2 * (r + 1)) =
        2 * t :: (2 * t + 1) :: List.range' (2 * t + 2) (2 * r) := by
      rw [show 2 * (r + 1) = 2 * r + 1 + 1 from by ring, List.range'_succ, List.range'_succ]
    rw [hr]
    simp only [List.foldl_cons]
    exact hih

end SHA512X86

namespace SHA512X86

lemma le_digit_extract (c0 c1 c2 c3 c4 c5 c6 c7 : Nat) (h0 : c0 < 256) (h1 : c1 < 256)
    (h2 : c2 < 256) (h3 : c3 < 256) (h4 : c4 < 256) (h5 : c5 < 256) (h6 : c6 < 256)
    (h7 : c7 < 256) :
    (c0 + c1 * 2 ^ 8 + c2 * 2 ^ 16 + c3 * 2 ^ 24 + c4 * 2 ^ 32 + c5 * 2 ^ 40 + c6 * 2 ^ 48 +
        c7 * 2 ^ 56) / 2 ^ (8 * 0) % 256 = c0 ∧
    (c0 + c1 * 2 ^ 8 + c2 * 2 ^ 16 + c3 * 2 ^ 24 + c4 * 2 ^ 32 + c5 * 2 ^ 40 + c6 * 2 ^ 48 +
        c7 * 2 ^ 56) / 2 ^ (8 * 1) % 256 = c1 ∧
    (c0 + c1 * 2 ^ 8 + c2 * 2 ^ 16 + c3 * 2 ^ 24 + c4 * 2 ^ 32 + c5 * 2 ^ 40 + c6 * 2 ^ 48 +
        c7 * 2 ^ 56) / 2 ^ (8 * 2) % 256 = c2 ∧
    (c0 + c1 * 2 ^ 8 + c2 * 2 ^ 16 + c3 * 2 ^ 24 + c4 * 2 ^ 32 + c5 * 2 ^ 40 + c6 * 2 ^ 48 +
        c7 * 2 ^ 56) / 2 ^ (8 * 3) % 256 = c3 ∧
    (c0 + c1 * 2 ^ 8 + c2 * 2 ^ 16 + c3 * 2 ^ 24 + c4 * 2 ^ 32 + c5 * 2 ^ 40 + c6 * 2 ^ 48 +
        c7 * 2 ^ 56) / 2 ^ (8 * 4) % 256 = c4 ∧
    (c0 + c1 * 2 ^ 8 + c2 * 2 ^ 16 + c3 * 2 ^ 24 + c4 * 2 ^ 32 + c5 * 2 ^ 40 + c6 * 2 ^ 48 +
        c7 * 2 ^ 56) / 2 ^ (8 * 5) % 256 = c5 ∧
    (c0 + c1 * 2 ^ 8 + c2 * 2 ^ 16 + c3 * 2 ^ 24 + c4 * 2 ^ 32 + c5 * 2 ^ 40 + c6 * 2 ^ 48 +
        c7 * 2 ^ 56) / 2 ^ (8 * 6) % 256 = c6 ∧
    (c0 + c1 * 2 ^ 8 + c2 * 2 ^ 16 + c3 * 2 ^ 24 + c4 * 2 ^ 32 + c5 * 2 ^ 40 + c6 * 2 ^ 48 +
        c7 * 2 ^ 56) / 2 ^ (8 * 7) % 256 = c7 := by
  refine ⟨?_, ?_, ?_, ?_, ?_, ?_, ?_, ?_⟩ <;> omega

lemma bswap_le_be (b : Block) (hb : Bytes b) (o j : Nat) (ho : o = 8 * j) :
    bswap64 (leWord b o) = beWord b j := by
  subst ho
  obtain ⟨e0, e1, e2, e3, e4, e5, e6, e7⟩ :=
    le_digit_extract (b (8 * j)) (b (8 * j + 1)) (b (8 * j + 2)) (b (8 * j + 3))
      (b (8 * j + 4)) (b (8 * j + 5)) (b (8 * j + 6)) (b (8 * j + 7))
      (hb _) (hb _) (hb _) (hb _) (hb _) (hb _) (hb _) (hb _)
  simp only [bswap64, byteAt, leWord, beWord, Nat.shiftRight_eq_div_pow]
  rw [e0, e1, e2, e3, e4, e5, e6, e7]

lemma loadlane (b : Block) (hb : Bytes b) (o j : Nat) (ho : o = 8 * j) (hj : j < 16) :
    bswap64 (leWord b o) = Wsched b j := by
  rw [Wsched_lt16 b j hj]
  exact bswap_le_be b hb o j ho

lemma load_avx_window (b : Block) (hb : Bytes b) :
    (load_data_avx b).1 = windowAt b 0 := by
  simp only [load_data_avx, windowAt, windowOf, vbswap, loadu128]
  norm_num
  repeat' apply And.intro
  all_goals exact loadlane b hb _ _ (by norm_num) (by norm_num)

lemma load_avx_msInv (b : Block) (hb : Bytes b) : msInv b 0 (load_data_avx b).2 := by
  intro k hk
  have hik : msIdx 0 k = k := by unfold msIdx; omega
  rw [hik]
  by_cases hp : k % 2 = 0
  · obtain ⟨i, rfl⟩ : ∃ i, k = 2 * i := ⟨k / 2, by omega⟩
    simp only [load_data_avx]
    rw [if_pos hk, if_pos (by omega : 2 * i % 2 = 0), show 2 * i / 2 = i from by omega]
    simp only [v2ops, vbswap, loadu128]
    rw [bswap_le_be b hb (16 * i) (2 * i) (by ring), Wsched_lt16 b (2 * i) (by omega)]
  · obtain ⟨i, rfl⟩ : ∃ i, k = 2 * i + 1 := ⟨k / 2, by omega⟩
    simp only [load_data_avx]
    rw [if_pos hk, if_neg (by omega : ¬ (2 * i + 1) % 2 = 0),
      show (2 * i + 1) / 2 = i from by omega]
    simp only [v2ops, vbswap, loadu128]
    rw [bswap_le_be b hb (16 * i + 8) (2 * i + 1) (by ring),
      Wsched_lt16 b (2 * i + 1) (by omega)]

lemma land_fifteen (i : Nat) : i &&& 0xf = i % 16 := by
  have h := Nat.and_pow_two_sub_one_eq_mod i 4
  norm_num at h
  exact h

lemma rounds_64_79_spec (b : Block) (cs : State) (ms : Nat → Nat) (hms : msInv b 32 ms) :
    rounds_64_79 cs ms =
      List.foldl (fun c i => sha_round c (wadd (Wsched b i) (K64 i))) cs
        (List.range' 64 16) := by
  unfold rounds_64_79
  apply List.foldl_ext
  intro c i hi
  rw [List.mem_range'_1] at hi
  congr 1
  rw [land_fifteen, hms (i % 16) (by omega), msIdx_final i hi.1 (by omega)]

set_option maxRecDepth 8000 in
lemma narrow_eq_scalar (s : State) (b : Block) (hb : Bytes b) :
    sha512_compress_x86_64_avx s b = scalar_block s b := by
  simp only [sha512_compress_x86_64_avx, scalar_block, rounds_0_63_avx]
  have hgo := rounds_go_spec b hb 32 0 s (load_data_avx b).2 (by norm_num) (load_avx_msInv b hb)
  norm_num at hgo
  rw [load_avx_window b hb]
  rw [rounds_64_79_spec b _ _ hgo.2, hgo.1]
  have h1 := List.range'_append_1 0 64 16
  norm_num at h1
  rw [List.range_eq_range', ← h1, List.foldl_append]

end SHA512X86

namespace SHA512X86

lemma compress_pairs_cons (s : State) (a b : Block) (l : List Block) :
    compress_pairs s (a :: b :: l) = compress_pairs (avx2_pair_step s a b) l := rfl

lemma avx2_loop_eq_pairs (blocks : List Block) :
    ∀ fuel i s, (blocks.length - i) % 2 = 0 → blocks.length ≤ i + 2 * fuel →
      avx2_loop blocks fuel s i = compress_pairs s (blocks.drop i) := by
  intro fuel
  induction fuel with
  | zero =>
    intro i s hpar hle
    rw [List.drop_eq_nil_of_le (by omega)]
    rfl
  | succ fuel ih =>
    intro i s hpar hle
    by_cases hi : i < blocks.length
    · have hi1 : i + 1 < blocks.length := by omega
      rw [show avx2_loop blocks (fuel + 1) s i =
          avx2_loop blocks fuel
            (avx2_pair_step s (blocks.getD i zeroBlock) (blocks.getD (i + 1) zeroBlock))
            (i + 2) from by simp [avx2_loop, hi]]
      rw [ih (i + 2) _ (by omega) (by omega)]
      rw [List.drop_eq_getElem_cons hi, List.drop_eq_getElem_cons hi1, compress_pairs_cons]
      rw [List.getD_eq_getElem _ _ hi, List.getD_eq_getElem _ _ hi1]
    · rw [List.drop_eq_nil_of_le (by omega)]
      simp [avx2_loop, hi]
      rfl

lemma blk2_bytes (a b : Block) (ha : Bytes a) (hb : Bytes b) : Bytes (blk2 a b) := by
  intro i
  unfold blk2
  by_cases h : i < 128
  · rw [if_pos h]; exact ha i
  · rw [if_neg h]; exact hb (i - 128)

lemma K64X4_at0 (i : Nat) : K64X4 (4 * i) = K64 (2 * i) := by
  unfold K64X4; congr 1; omega

lemma K64X4_at1 (i : Nat) : K64X4 (4 * i + 1) = K64 (2 * i + 1) := by
  unfold K64X4; congr 1; omega

lemma K64X4_at2 (i : Nat) : K64X4 (4 * i + 2) = K64 (2 * i) := by
  unfold K64X4; congr 1; omega

lemma K64X4_at3 (i : Nat) : K64X4 (4 * i + 3) = K64 (2 * i + 1) := by
  unfold K64X4; congr 1; omega

lemma load_avx_ms_be (b : Block) (hb : Bytes b) (k : Nat) (hk : k < 16) :
    (load_data_avx b).2 k = wadd (beWord b k) (K64 k) := by
  have h := load_avx_msInv b hb k hk
  rw [show msIdx 0 k = k from by unfold msIdx; omega] at h
  rw [h, Wsched_lt16 b k hk]

lemma load_avx2_ms (a b : Block) (ha : Bytes a) (hb : Bytes b) (k : Nat) (hk : k < 16) :
    (load_data_avx2 a b).2.1 k = wadd (beWord (blk2 a b) (k + 2)) (K64 k) := by
  have hab := blk2_bytes a b ha hb
  by_cases hp : k % 2 = 0
  · obtain ⟨i, rfl⟩ : ∃ i, k = 2 * i := ⟨k / 2, by omega⟩
    simp only [load_data_avx2]
    rw [if_pos hk, if_pos (by omega : 2 * i % 2 = 0), show 2 * i / 2 = i from by omega]
    simp only [v4ops, prodOps, v2ops, vbswap, loadu128, kx4]
    rw [K64X4_at0, bswap_le_be _ hab (16 * (i + 1)) (2 * (i + 1)) (by ring),
      show 2 * (i + 1) = 2 * i + 2 from by ring]
  · obtain ⟨i, rfl⟩ : ∃ i, k = 2 * i + 1 := ⟨k / 2, by omega⟩
    simp only [load_data_avx2]
    rw [if_pos hk, if_neg (by omega : ¬ (2 * i + 1) % 2 = 0),
      show (2 * i + 1) / 2 = i from by omega]
    simp only [v4ops, prodOps, v2ops, vbswap, loadu128, kx4]
    rw [K64X4_at1, bswap_le_be _ hab (16 * (i + 1) + 8) (2 * (i + 1) + 1) (by ring),
      show 2 * (i + 1) + 1 = 2 * i + 1 + 2 from by ring]

lemma load_avx2_t2 (a b : Block) (ha : Bytes a) (hb : Bytes b) (k : Nat) (hk : k < 16) :
    (load_data_avx2 a b).2.2 k = wadd (beWord (blk2 a b) k) (K64 k) := by
  have hab := blk2_bytes a b ha hb
  by_cases hp : k % 2 = 0
  · obtain ⟨i, rfl⟩ : ∃ i, k = 2 * i := ⟨k / 2, by omega⟩
    simp only [load_data_avx2]
    rw [if_pos hk, if_pos (by omega : 2 * i % 2 = 0), show 2 * i / 2 = i from by omega]
    simp only [v4ops, prodOps, v2ops, vbswap, loadu128, kx4]
    rw [K64X4_at2, bswap_le_be _ hab (16 * i) (2 * i) (by ring)]
  · obtain ⟨i, rfl⟩ : ∃ i, k = 2 * i + 1 := ⟨k / 2, by omega⟩
    simp only [load_data_avx2]
    rw [if_pos hk, if_neg (by omega : ¬ (2 * i + 1) % 2 = 0),
      show (2 * i + 1) / 2 = i from by omega]
    simp only [v4ops, prodOps, v2ops, vbswap, loadu128, kx4]
    rw [K64X4_at3, bswap_le_be _ hab (16 * i + 8) (2 * i + 1) (by ring)]

end SHA512X86

namespace SHA512X86

/-- Claim C3: one application of the round primitive computes
`t = x + s7 + Σ1(s4) + Ch(s4,s5,s6)`, replaces `s7` by `t + Σ0(s0) +
Maj(s0,s1,s2)` and `s3` by `s3 + t` (mod 2⁶⁴), then rotates the tuple so
the new `s7` becomes the new `s0`, with the claimed Σ0/Σ1/Ch/Maj
formulas. -/
theorem C3_round_primitive (s : State) (x : Nat) : sha_round s x = claim_round s x := by
  simp only [sha_round, claim_round, rotate_state, big_sigma0, big_sigma1, bool3ary_202,
    bool3ary_232, State.mk.injEq, wadd, M]
  repeat' apply And.intro
  all_goals first | trivial | omega

/-- Claim C4: one step of the vectorized expansion (both the 128-bit
instantiation and, lane-by-lane, the 256-bit one) advances the schedule
window by the recurrence `W[i] = W[i-16] + W[i-7] + σ0(W[i-15]) +
σ1(W[i-2])` (mod 2⁶⁴): with the window holding `q 0 .. q 15 =
W[i-16] .. W[i-1]`, the two new words are `q 0 + q 9 + σ0(q 1) +
σ1(q 14)` and `q 1 + q 10 + σ0(q 2) + σ1(q 15)`, i.e. the shift/xor
sequence of the intrinsics equals the σ functions on the correct
predecessor words; the returned pair additionally carries the round
constants.  The 256-bit version acts as two independent copies of the
128-bit one. -/
theorem C4_schedule_expansion_step (q : Nat → Nat) (k1 k2 : Nat) (x : X8 V4) (ka kb : V2)
    (h1 : q 1 < M) (h2 : q 2 < M) (h14 : q 14 < M) (h15 : q 15 < M) :
    sha512_update_x_avx (windowOf q) (k1, k2) =
      (⟨(q 2, q 3), (q 4, q 5), (q 6, q 7), (q 8, q 9), (q 10, q 11), (q 12, q 13),
        (q 14, q 15), (nextLo q, nextHi q)⟩,
       (wadd (nextLo q) k1, wadd (nextHi q) k2)) ∧
    nextLo q = (q 0 + q 9 + sigma0 (q 1) + sigma1 (q 14)) % M ∧
    nextHi q = (q 1 + q 10 + sigma0 (q 2) + sigma1 (q 15)) % M ∧
    sha512_update_x_avx2 x (ka, kb) =
      (X8.zip (sha512_update_x_avx x.fstX ka).1 (sha512_update_x_avx x.sndX kb).1,
       ((sha512_update_x_avx x.fstX ka).2, (sha512_update_x_avx x.sndX kb).2)) :=
  ⟨update_x_avx_spec q h1 h2 h14 h15 k1 k2, wadd_flat4 _ _ _ _, wadd_flat4 _ _ _ _, rfl⟩

theorem C4_schedule_expansion_step_witness :
    (id 1 < M ∧ id 2 < M ∧ id 14 < M ∧ id 15 < M) ∧
    (sha512_update_x_avx (windowOf id) (5, 6) =
        (⟨(id 2, id 3), (id 4, id 5), (id 6, id 7), (id 8, id 9), (id 10, id 11),
          (id 12, id 13), (id 14, id 15), (nextLo id, nextHi id)⟩,
         (wadd (nextLo id) 5, wadd (nextHi id) 6)) ∧
      nextLo id = (id 0 + id 9 + sigma0 (id 1) + sigma1 (id 14)) % M ∧
      nextHi id = (id 1 + id 10 + sigma0 (id 2) + sigma1 (id 15)) % M ∧
      sha512_update_x_avx2 xW ((7, 8), (9, 10)) =
        (X8.zip (sha512_update_x_avx xW.fstX (7, 8)).1
          (sha512_update_x_avx xW.sndX (9, 10)).1,
         ((sha512_update_x_avx xW.fstX (7, 8)).2,
          (sha512_update_x_avx xW.sndX (9, 10)).2))) :=
  ⟨⟨by decide, by decide, by decide, by decide⟩,
   C4_schedule_expansion_step id 5 6 xW (7, 8) (9, 10) (by decide) (by decide) (by decide)
     (by decide)⟩

/-- Claim C6: when the wide path is active, an odd-length block sequence
sends exactly the first block through the narrow-vector compressor and
consumes the rest in consecutive pairs in order; an even-length sequence
is consumed entirely in consecutive pairs. -/
theorem C6_odd_even_dispatch (s : State) (blocks : List Block) :
    (blocks.length % 2 = 1 →
      sha512_compress_x86_64_avx2 s blocks =
        compress_pairs (sha512_compress_x86_64_avx s (blocks.getD 0 zeroBlock))
          (blocks.drop 1)) ∧
    (blocks.length % 2 = 0 →
      sha512_compress_x86_64_avx2 s blocks = compress_pairs s blocks) := by
  constructor
  · intro hodd
    have hcond : blocks.length &&& 0b1 ≠ 0 := by rw [Nat.and_one_is_mod]; omega
    unfold sha512_compress_x86_64_avx2
    rw [if_pos hcond]
    exact avx2_loop_eq_pairs blocks blocks.length 1 _ (by omega) (by omega)
  · intro heven
    have hcond : ¬ blocks.length &&& 0b1 ≠ 0 := by rw [Nat.and_one_is_mod]; omega
    unfold sha512_compress_x86_64_avx2
    rw [if_neg hcond]
    have h := avx2_loop_eq_pairs blocks blocks.length 0 s (by omega) (by omega)
    simpa using h

theorem C6_odd_even_dispatch_witness :
    ([zeroBlock] : List Block).length % 2 = 1 ∧
    sha512_compress_x86_64_avx2 st0 [zeroBlock] =
      compress_pairs
        (sha512_compress_x86_64_avx st0 (([zeroBlock] : List Block).getD 0 zeroBlock))
        (([zeroBlock] : List Block).drop 1) :=
  ⟨by decide, (C6_odd_even_dispatch st0 [zeroBlock]).1 (by decide)⟩

/-- Claim C7: the narrow path applies the round primitive exactly 80
times per block — its result is a fold of `sha_round` over the 80-entry
list of schedule words `W[i] + K[i]` — and rounds 64..79 consume the
16-word circular buffer at index `i mod 16` (the code's `i & 0xf`). -/
theorem C7_eighty_rounds_circular (s : State) (b : Block) (hb : Bytes b) :
    sha512_compress_x86_64_avx s b =
      accumulate_state s
        (List.foldl (fun c i => sha_round c (wadd (Wsched b i) (K64 i))) s (List.range 80)) ∧
    (List.range 80).length = 80 ∧
    (∀ (cs : State) (ms : Nat → Nat),
      rounds_64_79 cs ms =
        List.foldl (fun c i => sha_round c (ms (i % 16))) cs (List.range' 64 16)) := by
  refine ⟨(narrow_eq_scalar s b hb).trans rfl, by simp, ?_⟩
  intro cs ms
  unfold rounds_64_79
  apply List.foldl_ext
  intro c i _
  rw [land_fifteen]

theorem C7_eighty_rounds_circular_witness :
    Bytes zeroBlock ∧
    (sha512_compress_x86_64_avx st0 zeroBlock =
        accumulate_state st0
          (List.foldl (fun c i => sha_round c (wadd (Wsched zeroBlock i) (K64 i))) st0
            (List.range 80)) ∧
      (List.range 80).length = 80 ∧
      (∀ (cs : State) (ms : Nat → Nat),
        rounds_64_79 cs ms =
          List.foldl (fun c i => sha_round c (ms (i % 16))) cs (List.range' 64 16))) :=
  ⟨fun _ => by simp [zeroBlock],
   C7_eighty_rounds_circular st0 zeroBlock (fun _ => by simp [zeroBlock])⟩

/-- Claim C8: for every state and either value of the capability flag,
compressing an empty block sequence leaves the state unchanged. -/
theorem C8_empty_noop (gate : Bool) (s : State) : compress gate s [] = s := by
  cases gate <;> rfl

/-- Claim C9: the dispatcher is deterministic — for a fixed capability
flag, equal (state, blocks) inputs give equal resulting states. -/
theorem C9_deterministic (gate : Bool) (s1 s2 : State) (bs1 bs2 : List Block)
    (hs : s1 = s2) (hbs : bs1 = bs2) : compress gate s1 bs1 = compress gate s2 bs2 := by
  rw [hs, hbs]

theorem C9_deterministic_witness :
    (st0 = st0 ∧ ([] : List Block) = ([] : List Block)) ∧
    compress true st0 [] = compress true st0 [] :=
  ⟨⟨rfl, rfl⟩, C9_deterministic true st0 st0 [] [] rfl rfl⟩

/-- Claim C10: every schedule word handed to the round primitive already
carries its round constant: the narrow loader stores `word + K64[k]` in
`ms[k]`, the wide loader stores `word + K64[k]` in both `ms[k]` and
`t2[k]` (for the words it actually loads), the expansion step returns
`new word + constant`, and the narrow path's rounds consume exactly
`W[i] + K64[i]` — so no round adds a constant itself. -/
theorem C10_constants_preadded (s : State) (b a2 b2 : Block) (q : Nat → Nat) (k1 k2 k : Nat)
    (hb : Bytes b) (ha2 : Bytes a2) (hb2 : Bytes b2)
    (hq1 : q 1 < M) (hq2 : q 2 < M) (hq14 : q 14 < M) (hq15 : q 15 < M) (hk : k < 16) :
    (load_data_avx b).2 k = wadd (beWord b k) (K64 k) ∧
    (load_data_avx2 a2 b2).2.1 k = wadd (beWord (blk2 a2 b2) (k + 2)) (K64 k) ∧
    (load_data_avx2 a2 b2).2.2 k = wadd (beWord (blk2 a2 b2) k) (K64 k) ∧
    (sha512_update_x_avx (windowOf q) (k1, k2)).2 = (wadd (nextLo q) k1, wadd (nextHi q) k2) ∧
    sha512_compress_x86_64_avx s b =
      accumulate_state s
        (List.foldl (fun c i => sha_round c (wadd (Wsched b i) (K64 i))) s (List.range 80)) :=
  ⟨load_avx_ms_be b hb k hk, load_avx2_ms a2 b2 ha2 hb2 k hk, load_avx2_t2 a2 b2 ha2 hb2 k hk,
   congrArg Prod.snd (update_x_avx_spec q hq1 hq2 hq14 hq15 k1 k2),
   (narrow_eq_scalar s b hb).trans rfl⟩

theorem C10_constants_preadded_witness :
    (Bytes zeroBlock ∧ id 1 < M ∧ id 2 < M ∧ id 14 < M ∧ id 15 < M ∧ 0 < 16) ∧
    ((load_data_avx zeroBlock).2 0 = wadd (beWord zeroBlock 0) (K64 0) ∧
      (load_data_avx2 zeroBlock zeroBlock).2.1 0 =
        wadd (beWord (blk2 zeroBlock zeroBlock) (0 + 2)) (K64 0) ∧
      (load_data_avx2 zeroBlock zeroBlock).2.2 0 =
        wadd (beWord (blk2 zeroBlock zeroBlock) 0) (K64 0) ∧
      (sha512_update_x_avx (windowOf id) (5, 6)).2 =
        (wadd (nextLo id) 5, wadd (nextHi id) 6) ∧
      sha512_compress_x86_64_avx st0 zeroBlock =
        accumulate_state st0
          (List.foldl (fun c i => sha_round c (wadd (Wsched zeroBlock i) (K64 i))) st0
            (List.range 80))) :=
  ⟨⟨fun _ => by simp [zeroBlock], by decide, by decide, by decide, by decide, by decide⟩,
   C10_constants_preadded st0 zeroBlock zeroBlock zeroBlock id 5 6 0
     (fun _ => by simp [zeroBlock]) (fun _ => by simp [zeroBlock]) (fun _ => by simp [zeroBlock])
     (by decide) (by decide) (by decide) (by decide) (by decide)⟩

set_option maxRecDepth 2000000 in
/-- Claim C2 fails on the code: `load_data_avx2` inserts chunk `i` of
the pair region into the high lane and chunk `i + 1` into the low lane
(instead of chunk `i` of each block), so after loading, `ms[0]` is NOT
big-endian word 0 of block A plus `K64[0]`, and `t2[0]` is block A's
word 0 plus `K64[0]` rather than block B's.  Evaluated here at a
concrete block pair. -/
theorem C2_lane_loading_failing_eval :
    (load_data_avx2 cxBlockA zeroBlock).2.1 0 ≠ wadd (beWord cxBlockA 0) (K64 0) ∧
    (load_data_avx2 cxBlockA zeroBlock).2.2 0 ≠ wadd (beWord zeroBlock 0) (K64 0) ∧
    (load_data_avx2 cxBlockA zeroBlock).2.2 0 = wadd (beWord cxBlockA 0) (K64 0) := by
  refine ⟨by decide, by decide, by decide⟩

set_option maxRecDepth 2000000 in
/-- Claim C1 fails on the code: because of the mis-aligned dual-block
load, the wide-vector compressor on the two-block sequence below differs
from the narrow-vector compressor applied block-by-block. -/
theorem C1_wide_narrow_failing_eval :
    sha512_compress_x86_64_avx2 stC1 [cxBlockA, zeroBlock] ≠
      sha512_compress_x86_64_avx (sha512_compress_x86_64_avx stC1 cxBlockA) zeroBlock := by
  decide

set_option maxRecDepth 2000000 in
/-- Claim C5 fails on the code in its final conjunct: the pair step is
sequential in structure, but after the pair the state does not reflect
"A then B" — at the concrete input below it differs from running the
narrow compressor on A and then on B. -/
theorem C5_sequential_application_failing_eval :
    avx2_pair_step stC5 cxBlockA zeroBlock ≠
      sha512_compress_x86_64_avx (sha512_compress_x86_64_avx stC5 cxBlockA) zeroBlock := by
  decide

end SHA512X86
